import Mathlib

/-!
Verification of the `plaque` reversible execution engine
(`src/src/engine.rs`) against its natural-language specification.

The engine state and its operations are translated directly from
`engine.rs`.  The `Instruction` type and the instruction catalog live in
`src/instruction.rs`, which is not part of the sources available here;
they are modelled from the specification (see the doc comments on
`Instruction` and `Catalog`).

Machine integers: `usize` values are modelled as `Nat`; Rust release-mode
wrapping subtraction is modelled explicitly by `usizeSub` at the places
where the source can underflow (`goto`'s error message, the
`prev_instruction` and `goto_prev` `End` arms, and `prev_cell`).
-/

namespace Plaque

/-- Exceptions raised by engine operations (`engine.rs` lines 3-7):
an ordinary error with a message, or the `RequestingInput` control
signal. -/
inductive Exception where
  | Error : String → Exception
  | RequestingInput : Exception
deriving DecidableEq

deriving instance DecidableEq for Except

/-- `EngineResult` from `engine.rs` line 19: `Result<(), Exception>`. -/
abbrev EngineResult := Except Exception Unit

/-- The three-state program counter (`engine.rs` lines 21-26). -/
inductive InstructionPointer where
  | Start : InstructionPointer
  | End : InstructionPointer
  | Index : Nat → InstructionPointer
deriving DecidableEq

/-- Modelled from the spec: `src/instruction.rs` is not among the
available sources.  Per spec section 6 an instruction is identified by a
single-character symbol, and equality between two `Instruction` values is
defined by symbol identity (used by seek-forward/seek-backward and by
history bookkeeping).  Its forward and inverse effects are supplied by
the instruction catalog (`Catalog` below), keyed by the symbol. -/
structure Instruction where
  symbol : Char
deriving DecidableEq

/-- The engine state (`engine.rs` lines 28-38).  Tape cells and I/O
buffer entries are `u8` in the source; no operation modelled here
performs cell arithmetic, so they are carried as `Nat`. -/
structure Engine where
  tape : List Nat
  tape_pointer : Nat
  instructions : List Instruction
  instruction_pointer : InstructionPointer
  history : List Instruction
  output : List Nat
  input : List Nat
  input_cell_history : List Nat
deriving DecidableEq

/-- Wrapping `usize` subtraction (Rust release semantics): exact on
`b ≤ a`, and wrapping modulo `2 ^ 64` on underflow, for operands below
`2 ^ 64` (always the case for actual `usize` values). -/
def usizeSub (a b : Nat) : Nat :=
  if b ≤ a then a - b else a + (2 ^ 64 - b)

/-- `Engine::new` (`engine.rs` lines 41-52). -/
def Engine.new (instructions : List Instruction) : Engine :=
  { tape := [0]
    tape_pointer := 0
    instructions := instructions
    instruction_pointer := InstructionPointer.Start
    history := []
    output := []
    input := []
    input_cell_history := [] }

/-- `Engine::goto` (`engine.rs` lines 58-70).  The error message embeds
`self.instructions.len() - 1`, an unguarded `usize` subtraction, hence
`usizeSub`. -/
def Engine.goto (e : Engine) (instruction_index : Nat) : EngineResult × Engine :=
  if instruction_index < e.instructions.length then
    (Except.ok (), { e with instruction_pointer := InstructionPointer.Index instruction_index })
  else
    (Except.error (Exception.Error
        ("no instruction at position " ++ toString instruction_index
          ++ " (max " ++ toString (usizeSub e.instructions.length 1) ++ ")")), e)

/-- `Engine::current_instruction` (`engine.rs` lines 92-98).  The source
indexes with `self.instructions[i]`, which panics when `i` is out of
range; here the lookup is `List.getElem?`, and every theorem about the
`Index` case carries the bound `i < instructions.length` under which the
two agree. -/
def Engine.current_instruction (e : Engine) : Option Instruction :=
  match e.instruction_pointer with
  | InstructionPointer.Start => none
  | InstructionPointer.End => none
  | InstructionPointer.Index i => e.instructions[i]?

/-- `Engine::next_instruction` (`engine.rs` lines 100-118). -/
def Engine.next_instruction (e : Engine) : EngineResult × Engine :=
  match e.instruction_pointer with
  | InstructionPointer.End =>
      (Except.error (Exception.Error "already at the end of the instruction list"), e)
  | InstructionPointer.Start =>
      (Except.ok (), { e with instruction_pointer := InstructionPointer.Index 0 })
  | InstructionPointer.Index i =>
      if i + 1 = e.instructions.length then
        (Except.ok (), { e with instruction_pointer := InstructionPointer.End })
      else
        (Except.ok (), { e with instruction_pointer := InstructionPointer.Index (i + 1) })

/-- `Engine::prev_instruction` (`engine.rs` lines 120-138).  The `End`
arm computes `self.instructions.len() - 1`, an unguarded `usize`
subtraction, hence `usizeSub`. -/
def Engine.prev_instruction (e : Engine) : EngineResult × Engine :=
  match e.instruction_pointer with
  | InstructionPointer.Start =>
      (Except.error (Exception.Error "already at the start of the instruction list"), e)
  | InstructionPointer.End =>
      (Except.ok (), { e with instruction_pointer :=
        InstructionPointer.Index (usizeSub e.instructions.length 1) })
  | InstructionPointer.Index i =>
      if i = 0 then
        (Except.ok (), { e with instruction_pointer := InstructionPointer.Start })
      else
        (Except.ok (), { e with instruction_pointer := InstructionPointer.Index (i - 1) })

/-- Modelled from the spec: the instruction catalog of
`src/instruction.rs` is not among the available sources.  Per spec
section 6 it maps each symbol to a forward effect and an inverse effect,
each a function taking exclusive access to the full engine state and
returning success, an error, or `RequestingInput` — the Rust type
`fn(&mut Engine) -> EngineResult`, rendered here as
`Engine → EngineResult × Engine` so that an effect may mutate state and
still fail.  Per spec section 3 the history stack is the engine's own
bookkeeping: its length equals the number of successful forward steps not
yet undone, and "there is no external mutation path"; catalog effects
therefore neither read nor write the `history` field (`exec_hist`,
`unexec_hist`), that field being managed by `step`/`undo` alone. -/
structure Catalog where
  exec : Char → Engine → EngineResult × Engine
  unexec : Char → Engine → EngineResult × Engine
  exec_hist : ∀ c e h, exec c { e with history := h } =
    ((exec c e).1, { (exec c e).2 with history := h })
  unexec_hist : ∀ c e h, unexec c { e with history := h } =
    ((unexec c e).1, { (unexec c e).2 with history := h })

/-- The `.map(|_| self.history.push(instruction))` closure of
`Engine::step`: on a successful effect result, push the instruction onto
the history; on failure, propagate unchanged. -/
def push_on_ok (instruction : Instruction) : EngineResult × Engine → EngineResult × Engine
  | (Except.ok _, m) => (Except.ok (), { m with history := m.history ++ [instruction] })
  | (Except.error ex, m) => (Except.error ex, m)

/-- `Engine::step` (`engine.rs` lines 72-79): execute the current
instruction and push it onto the history on success; at a boundary,
behave as `next_instruction`. -/
def Engine.step (cat : Catalog) (e : Engine) : EngineResult × Engine :=
  match e.current_instruction with
  | some instruction => push_on_ok instruction (cat.exec instruction.symbol e)
  | none => e.next_instruction

/-- The `.map(|_| self.history.pop())` closure of `Engine::undo`: on a
successful inverse-effect result, pop the most recent history entry; on
failure, propagate unchanged. -/
def pop_on_ok : EngineResult × Engine → EngineResult × Engine
  | (Except.ok _, m) => (Except.ok (), { m with history := m.history.dropLast })
  | (Except.error ex, m) => (Except.error ex, m)

/-- `Engine::undo` (`engine.rs` lines 81-90): peek at the most recent
history entry (`history.last()`), run its inverse effect, and pop the
entry (`history.pop()`) only when the inverse effect succeeds. -/
def Engine.undo (cat : Catalog) (e : Engine) : EngineResult × Engine :=
  match e.history.getLast? with
  | none => (Except.error (Exception.Error "no previous instruction to undo"), e)
  | some instruction => pop_on_ok (cat.unexec instruction.symbol e)

/-- The forward scan loop of `Engine::goto_next` (`engine.rs` lines
149-155): the first index (offset by `k`) of an instruction equal to `g`
in `l`, mirroring `iter().skip(start).enumerate()` with absolute index
`start + i`. -/
def findFrom (l : List Instruction) (g : Instruction) (k : Nat) : Option Nat :=
  match l with
  | [] => none
  | x :: xs => if x = g then some k else findFrom xs g (k + 1)

/-- `Engine::goto_next` (`engine.rs` lines 140-158). -/
def Engine.goto_next (e : Engine) (g : Instruction) : EngineResult × Engine :=
  match e.instruction_pointer with
  | InstructionPointer.End =>
      (Except.error (Exception.Error "already at the end of the instruction list"), e)
  | InstructionPointer.Start =>
      match findFrom (e.instructions.drop 0) g 0 with
      | some j => (Except.ok (), { e with instruction_pointer := InstructionPointer.Index j })
      | none => (Except.error (Exception.Error
          ("no next " ++ g.symbol.toString ++ " instruction found")), e)
  | InstructionPointer.Index i =>
      match findFrom (e.instructions.drop (i + 1)) g (i + 1) with
      | some j => (Except.ok (), { e with instruction_pointer := InstructionPointer.Index j })
      | none => (Except.error (Exception.Error
          ("no next " ++ g.symbol.toString ++ " instruction found")), e)

/-- The backward scan loop of `Engine::goto_prev` (`engine.rs` lines
169-175): the index of the last instruction equal to `g` in `l`,
mirroring `take(end).rev().enumerate()` finding its first match. -/
def findLast (l : List Instruction) (g : Instruction) : Option Nat :=
  match l with
  | [] => none
  | x :: xs =>
      match findLast xs g with
      | some j => some (j + 1)
      | none => if x = g then some 0 else none

/-- `Engine::goto_prev` (`engine.rs` lines 160-178).  The `End` arm
computes `self.instructions.len() - 1` (unguarded `usize` subtraction,
hence `usizeSub`).  The source sets `Index(end - i - 1)` where `i` is the
position of the first match of the reversed `take(end)` prefix; with
`taken := instructions.take end` and `j` the index of the last match in
`taken`, that is `end - ((taken.length - 1 - j) + 1) = end - taken.length + j`
(no underflow: `taken.length ≤ end`). -/
def Engine.goto_prev (e : Engine) (g : Instruction) : EngineResult × Engine :=
  match e.instruction_pointer with
  | InstructionPointer.Start =>
      (Except.error (Exception.Error "already at the start of the instruction list"), e)
  | InstructionPointer.End =>
      let en := usizeSub e.instructions.length 1
      let taken := e.instructions.take en
      match findLast taken g with
      | some j =>
          (Except.ok (),
            { e with instruction_pointer := InstructionPointer.Index (en - taken.length + j) })
      | none => (Except.error (Exception.Error
          ("no previous " ++ g.symbol.toString ++ " instruction found")), e)
  | InstructionPointer.Index i =>
      let taken := e.instructions.take i
      match findLast taken g with
      | some j =>
          (Except.ok (),
            { e with instruction_pointer := InstructionPointer.Index (i - taken.length + j) })
      | none => (Except.error (Exception.Error
          ("no previous " ++ g.symbol.toString ++ " instruction found")), e)

/-- `Engine::next_cell` (`engine.rs` lines 180-188): move the tape
cursor right, appending a zero cell when it reaches the tape's length. -/
def Engine.next_cell (e : Engine) : EngineResult × Engine :=
  if e.tape_pointer + 1 = e.tape.length then
    (Except.ok (), { e with tape_pointer := e.tape_pointer + 1, tape := e.tape ++ [0] })
  else
    (Except.ok (), { e with tape_pointer := e.tape_pointer + 1 })

/-- `Engine::prev_cell` (`engine.rs` lines 190-194): `self.tape_pointer -= 1`,
an unguarded `usize` subtraction, hence `usizeSub`. -/
def Engine.prev_cell (e : Engine) : EngineResult × Engine :=
  (Except.ok (), { e with tape_pointer := usizeSub e.tape_pointer 1 })

/-- The inverse-effect contract of spec sections 6 and 8: each
instruction's inverse effect exactly reverses the state change made by
its forward effect — whenever the forward effect succeeds, the inverse
effect applied to the resulting state succeeds and yields the original
state. -/
def InverseContract (cat : Catalog) : Prop :=
  ∀ c e m, cat.exec c e = (Except.ok (), m) → cat.unexec c m = (Except.ok (), e)

/-- `n` successful `step` calls in sequence (of any kind: executing an
instruction or crossing a boundary like `advance`). -/
def StepSeq (cat : Catalog) : Nat → Engine → Engine → Prop
  | 0, e, e2 => e2 = e
  | Nat.succ n, e, e2 => ∃ e1, Engine.step cat e = (Except.ok (), e1) ∧ StepSeq cat n e1 e2

/-- A successful `step` call made while the program counter designates
an instruction (the step executes that instruction's forward effect). -/
def ExecStep (cat : Catalog) (e e2 : Engine) : Prop :=
  ∃ i, e.instruction_pointer = InstructionPointer.Index i ∧
    i < e.instructions.length ∧ Engine.step cat e = (Except.ok (), e2)

/-- `n` instruction-executing successful `step` calls in sequence. -/
def ExecSteps (cat : Catalog) : Nat → Engine → Engine → Prop
  | 0, e, e2 => e2 = e
  | Nat.succ n, e, e2 => ∃ e1, ExecStep cat e e1 ∧ ExecSteps cat n e1 e2

/-- The state after `n` `undo` calls (each call is made whether or not
the previous one succeeded, matching a caller issuing `n` undos). -/
def undoN (cat : Catalog) : Nat → Engine → Engine
  | 0, e => e
  | Nat.succ n, e => (Engine.undo cat (undoN cat n e)).2

/-- Instruction with symbol `a` (as in the source's test catalog). -/
def iA : Instruction := ⟨'a'⟩

/-- Instruction with symbol `b` (as in the source's test catalog). -/
def iB : Instruction := ⟨'b'⟩

/-- Instruction with symbol `c` (as in the source's test catalog). -/
def iC : Instruction := ⟨'c'⟩

/-- Forward effect of the `emitCat` catalog: the instruction `c` appends
the byte `1` to the output buffer; every other symbol fails. -/
def emitExec : Char → Engine → EngineResult × Engine := fun c e =>
  if c = 'c' then (Except.ok (), { e with output := e.output ++ [1] })
  else (Except.error (Exception.Error "unknown instruction"), e)

/-- Inverse effect of the `emitCat` catalog: the instruction `c` drops
the last byte of the output buffer; every other symbol fails. -/
def emitUnexec : Char → Engine → EngineResult × Engine := fun c e =>
  if c = 'c' then (Except.ok (), { e with output := e.output.dropLast })
  else (Except.error (Exception.Error "unknown instruction"), e)

/-- A one-instruction catalog (symbol `c` emits a byte) used as a
concrete instruction set in witnesses and counterexamples. -/
def emitCat : Catalog where
  exec := emitExec
  unexec := emitUnexec
  exec_hist := by
    intro c e h
    cases e
    by_cases hc : c = 'c' <;> simp [emitExec, hc]
  unexec_hist := by
    intro c e h
    cases e
    by_cases hc : c = 'c' <;> simp [emitUnexec, hc]

/-- A catalog whose every forward and inverse effect is a successful
no-op. -/
def noopCat : Catalog where
  exec := fun _ e => (Except.ok (), e)
  unexec := fun _ e => (Except.ok (), e)
  exec_hist := fun _ _ _ => rfl
  unexec_hist := fun _ _ _ => rfl

/-- A catalog whose forward effects are successful no-ops and whose
inverse effects always fail (leaving the state untouched). -/
def failCat : Catalog where
  exec := fun _ e => (Except.ok (), e)
  unexec := fun _ e => (Except.error (Exception.Error "inverse effect failed"), e)
  exec_hist := fun _ _ _ => rfl
  unexec_hist := fun _ _ _ => rfl

/-- The engine reached from `Engine.new [iC]` under `emitCat` by two
successful steps (entering the sequence, then executing `c`) followed by
one `prev_instruction`: program counter back at before-start while the
history already records the executed `c`. -/
def ce0 : Engine :=
  { tape := [0]
    tape_pointer := 0
    instructions := [iC]
    instruction_pointer := InstructionPointer.Start
    history := [iC]
    output := [1]
    input := []
    input_cell_history := [] }

/-- The engine after one further successful `step` from `ce0` (a pure
`advance`: before-start to at-index 0). -/
def ce1 : Engine := { ce0 with instruction_pointer := InstructionPointer.Index 0 }

/-- The engine reached from `Engine.new [iC]` under `failCat` by two
successful steps: at index 0 with history `[iC]`. -/
def e3 : Engine :=
  { tape := [0]
    tape_pointer := 0
    instructions := [iC]
    instruction_pointer := InstructionPointer.Index 0
    history := [iC]
    output := []
    input := []
    input_cell_history := [] }

/-- A fresh engine whose instruction sequence is empty. -/
def emptyEngine : Engine := Engine.new []

/-- A fresh engine on `[a, b, c, b, a, c]` (the spec's seek-forward
scenario program). -/
def abcEngine : Engine := Engine.new [iA, iB, iC, iB, iA, iC]

/-- A one-instruction engine whose program counter is at after-end
(reached from `Engine.new [iC]` by two `next_instruction` calls). -/
def endEngine : Engine := { Engine.new [iC] with instruction_pointer := InstructionPointer.End }

/-- The engine `{ Engine.new [iC] with pc at index 0 }`: about to execute
the lone instruction. -/
def w0 : Engine := { Engine.new [iC] with instruction_pointer := InstructionPointer.Index 0 }

/-- The engine after one executing step from `w0` under `emitCat`. -/
def w1 : Engine := { w0 with output := [1], history := [iC] }


theorem exec_snd_history (cat : Catalog) (c : Char) (e : Engine) :
    ((cat.exec c e).2).history = e.history := by
  have h := cat.exec_hist c e e.history
  have he : ({ e with history := e.history } : Engine) = e := rfl
  rw [he] at h
  simpa using congrArg (fun p => (Prod.snd p).history) h

theorem unexec_snd_history (cat : Catalog) (c : Char) (e : Engine) :
    ((cat.unexec c e).2).history = e.history := by
  have h := cat.unexec_hist c e e.history
  have he : ({ e with history := e.history } : Engine) = e := rfl
  rw [he] at h
  simpa using congrArg (fun p => (Prod.snd p).history) h

theorem step_cur_none (cat : Catalog) (e : Engine) (h : e.current_instruction = none) :
    Engine.step cat e = e.next_instruction := by
  unfold Engine.step
  rw [h]

theorem step_exec_ok (cat : Catalog) (e : Engine) (c : Instruction) (m : Engine)
    (h : e.current_instruction = some c) (hx : cat.exec c.symbol e = (Except.ok (), m)) :
    Engine.step cat e = (Except.ok (), { m with history := m.history ++ [c] }) := by
  unfold Engine.step
  rw [h]
  show push_on_ok c (cat.exec c.symbol e) = _
  rw [hx]
  rfl

theorem step_exec_error (cat : Catalog) (e : Engine) (c : Instruction) (ex : Exception)
    (m : Engine) (h : e.current_instruction = some c)
    (hx : cat.exec c.symbol e = (Except.error ex, m)) :
    Engine.step cat e = (Except.error ex, m) := by
  unfold Engine.step
  rw [h]
  show push_on_ok c (cat.exec c.symbol e) = _
  rw [hx]
  rfl

theorem undo_no_history (cat : Catalog) (e : Engine) (h : e.history.getLast? = none) :
    Engine.undo cat e = (Except.error (Exception.Error "no previous instruction to undo"), e) := by
  unfold Engine.undo
  rw [h]

theorem undo_unexec_ok (cat : Catalog) (e : Engine) (c : Instruction) (m : Engine)
    (h : e.history.getLast? = some c) (hx : cat.unexec c.symbol e = (Except.ok (), m)) :
    Engine.undo cat e = (Except.ok (), { m with history := m.history.dropLast }) := by
  unfold Engine.undo
  rw [h]
  show pop_on_ok (cat.unexec c.symbol e) = _
  rw [hx]
  rfl

theorem undo_unexec_error (cat : Catalog) (e : Engine) (c : Instruction) (ex : Exception)
    (m : Engine) (h : e.history.getLast? = some c)
    (hx : cat.unexec c.symbol e = (Except.error ex, m)) :
    Engine.undo cat e = (Except.error ex, m) := by
  unfold Engine.undo
  rw [h]
  show pop_on_ok (cat.unexec c.symbol e) = _
  rw [hx]
  rfl

theorem current_instruction_at (e : Engine) (i : Nat)
    (hip : e.instruction_pointer = InstructionPointer.Index i)
    (hl : i < e.instructions.length) :
    e.current_instruction = some (e.instructions.get ⟨i, hl⟩) := by
  unfold Engine.current_instruction
  rw [hip]
  simp

theorem undo_of_exec_step (cat : Catalog) (hc : InverseContract cat) (e e2 : Engine)
    (h : ExecStep cat e e2) : Engine.undo cat e2 = (Except.ok (), e) := by
  obtain ⟨i, hip, hl, hstep⟩ := h
  rcases hx : cat.exec (e.instructions.get ⟨i, hl⟩).symbol e with ⟨r, m⟩
  cases r with
  | error ex =>
      rw [step_exec_error cat e _ ex m (current_instruction_at e i hip hl) hx] at hstep
      exact absurd (congrArg Prod.fst hstep) (by simp)
  | ok u =>
      cases u
      rw [step_exec_ok cat e _ m (current_instruction_at e i hip hl) hx] at hstep
      have he2 : e2 = { m with history := m.history ++ [e.instructions.get ⟨i, hl⟩] } :=
        (congrArg Prod.snd hstep).symm
      have hmh : m.history = e.history := by
        have hm := exec_snd_history cat (e.instructions.get ⟨i, hl⟩).symbol e
        rw [hx] at hm
        exact hm
      have hun : cat.unexec (e.instructions.get ⟨i, hl⟩).symbol m = (Except.ok (), e) :=
        hc _ e m hx
      subst he2
      have hlast : ({ m with history := m.history ++ [e.instructions.get ⟨i, hl⟩] } : Engine).history.getLast?
          = some (e.instructions.get ⟨i, hl⟩) := by
        simp
      have hux : cat.unexec (e.instructions.get ⟨i, hl⟩).symbol
          { m with history := m.history ++ [e.instructions.get ⟨i, hl⟩] }
          = (Except.ok (), { e with history := m.history ++ [e.instructions.get ⟨i, hl⟩] }) := by
        have hh := cat.unexec_hist (e.instructions.get ⟨i, hl⟩).symbol m
          (m.history ++ [e.instructions.get ⟨i, hl⟩])
        rw [hh, hun]
      rw [undo_unexec_ok cat _ _ _ hlast hux]
      have hdrop : ({ e with history := m.history ++ [e.instructions.get ⟨i, hl⟩] } : Engine).history.dropLast
          = e.history := by
        rw [hmh]
        simp
      rw [hdrop]

/-- Claim C4, amended: for every engine and every index `i`, `goto i`
succeeds and sets the program counter to at-index `i` iff
`i < N` (`N` = instruction count); for every invalid `i` it fails with an
ordinary error whose message reports `N - 1` computed by wrapping `usize`
subtraction — the greatest valid index when the sequence is non-empty,
but `2 ^ 64 - 1` on an empty sequence — and the engine state is entirely
unchanged. -/
theorem C4_jump_amended (e : Engine) (i : Nat) :
    (i < e.instructions.length →
      Engine.goto e i = (Except.ok (), { e with instruction_pointer := InstructionPointer.Index i }))
  ∧ (¬ i < e.instructions.length →
      Engine.goto e i = (Except.error (Exception.Error
        ("no instruction at position " ++ toString i ++ " (max "
          ++ toString (usizeSub e.instructions.length 1) ++ ")")), e))
  ∧ (1 ≤ e.instructions.length →
      usizeSub e.instructions.length 1 = e.instructions.length - 1
      ∧ e.instructions.length - 1 < e.instructions.length)
  ∧ (e.instructions.length = 0 → usizeSub e.instructions.length 1 = 2 ^ 64 - 1) := by
  refine ⟨?_, ?_, ?_, ?_⟩
  · intro h
    unfold Engine.goto
    rw [if_pos h]
  · intro h
    unfold Engine.goto
    rw [if_neg h]
  · intro h
    unfold usizeSub
    rw [if_pos h]
    exact ⟨rfl, by omega⟩
  · intro h
    unfold usizeSub
    rw [h]
    rfl

/-- Claim C4, counterexample to the claim as stated: on an engine whose
instruction sequence is empty, `goto 0` fails leaving the state
unchanged, but the bound its message reports (`len - 1` wrapped:
`18446744073709551615`) is not a valid index, so the error does not
"report the valid upper bound". -/
theorem C4_counterexample :
    (Engine.goto emptyEngine 0).1 = Except.error (Exception.Error
      "no instruction at position 0 (max 18446744073709551615)")
  ∧ (Engine.goto emptyEngine 0).2 = emptyEngine
  ∧ usizeSub emptyEngine.instructions.length 1 = 18446744073709551615
  ∧ ¬ 18446744073709551615 < emptyEngine.instructions.length := by
  refine ⟨by decide, by decide, by decide, by decide⟩

/-- Claim C4, witness: the amended theorem applied on a 3-instruction
program, to a valid jump and to the out-of-range `jump 3` of the spec's
scenario (which reports maximum index 2 and leaves the engine
unchanged). -/
theorem C4_jump_witness :
    Engine.goto (Engine.new [iA, iB, iC]) 1
      = (Except.ok (), { Engine.new [iA, iB, iC] with instruction_pointer := InstructionPointer.Index 1 })
  ∧ Engine.goto (Engine.new [iA, iB, iC]) 3
      = (Except.error (Exception.Error "no instruction at position 3 (max 2)"), Engine.new [iA, iB, iC])
  ∧ usizeSub (Engine.new [iA, iB, iC]).instructions.length 1 = 2 := by
  refine ⟨(C4_jump_amended (Engine.new [iA, iB, iC]) 1).1 (by decide), ?_, ?_⟩
  · rw [(C4_jump_amended (Engine.new [iA, iB, iC]) 3).2.1 (by decide)]
    decide
  · have h := ((C4_jump_amended (Engine.new [iA, iB, iC]) 3).2.2.1 (by decide)).1
    simpa using h

/-- Claim C5: the program-counter transition table.  `advance`
(`next_instruction`) maps before-start to at-index 0, at-index `i` with
`i + 1 < N` to at-index `i + 1`, at-index `N - 1` to after-end, and fails
with the navigation-exhausted error at after-end; `retreat`
(`prev_instruction`) maps after-end to at-index `N - 1`, at-index `i`
with `0 < i` to at-index `i - 1`, at-index 0 to before-start, and fails
with the navigation-exhausted error at before-start; in every case only
the program counter changes. -/
theorem C5_pc_transitions (e : Engine) :
    (e.instruction_pointer = InstructionPointer.Start →
      e.next_instruction = (Except.ok (), { e with instruction_pointer := InstructionPointer.Index 0 }))
  ∧ (∀ i, e.instruction_pointer = InstructionPointer.Index i → i + 1 < e.instructions.length →
      e.next_instruction = (Except.ok (), { e with instruction_pointer := InstructionPointer.Index (i + 1) }))
  ∧ (∀ i, e.instruction_pointer = InstructionPointer.Index i → i + 1 = e.instructions.length →
      e.next_instruction = (Except.ok (), { e with instruction_pointer := InstructionPointer.End }))
  ∧ (e.instruction_pointer = InstructionPointer.End →
      e.next_instruction = (Except.error (Exception.Error "already at the end of the instruction list"), e))
  ∧ (e.instruction_pointer = InstructionPointer.End → 1 ≤ e.instructions.length →
      e.prev_instruction = (Except.ok (),
        { e with instruction_pointer := InstructionPointer.Index (e.instructions.length - 1) }))
  ∧ (∀ i, e.instruction_pointer = InstructionPointer.Index i → 0 < i →
      e.prev_instruction = (Except.ok (), { e with instruction_pointer := InstructionPointer.Index (i - 1) }))
  ∧ (e.instruction_pointer = InstructionPointer.Index 0 →
      e.prev_instruction = (Except.ok (), { e with instruction_pointer := InstructionPointer.Start }))
  ∧ (e.instruction_pointer = InstructionPointer.Start →
      e.prev_instruction = (Except.error (Exception.Error "already at the start of the instruction list"), e)) := by
  refine ⟨?_, ?_, ?_, ?_, ?_, ?_, ?_, ?_⟩
  · intro h
    simp [Engine.next_instruction, h]
  · intro i hip hlt
    simp [Engine.next_instruction, hip, Nat.ne_of_lt hlt]
  · intro i hip heq
    simp [Engine.next_instruction, hip, heq]
  · intro h
    simp [Engine.next_instruction, h]
  · intro h h1
    have hs : usizeSub e.instructions.length 1 = e.instructions.length - 1 := by
      unfold usizeSub
      rw [if_pos h1]
    simp [Engine.prev_instruction, h, hs]
  · intro i hip hpos
    simp [Engine.prev_instruction, hip, Nat.pos_iff_ne_zero.mp hpos]
  · intro h
    simp [Engine.prev_instruction, h]
  · intro h
    simp [Engine.prev_instruction, h]

/-- Claim C5, witness: the full transition table exercised on the
two-instruction program `[a, b]`. -/
theorem C5_pc_transitions_witness :
    Engine.next_instruction (Engine.new [iA, iB])
      = (Except.ok (), { Engine.new [iA, iB] with instruction_pointer := InstructionPointer.Index 0 })
  ∧ Engine.next_instruction { Engine.new [iA, iB] with instruction_pointer := InstructionPointer.Index 0 }
      = (Except.ok (), { Engine.new [iA, iB] with instruction_pointer := InstructionPointer.Index 1 })
  ∧ Engine.next_instruction { Engine.new [iA, iB] with instruction_pointer := InstructionPointer.Index 1 }
      = (Except.ok (), { Engine.new [iA, iB] with instruction_pointer := InstructionPointer.End })
  ∧ Engine.next_instruction { Engine.new [iA, iB] with instruction_pointer := InstructionPointer.End }
      = (Except.error (Exception.Error "already at the end of the instruction list"),
          { Engine.new [iA, iB] with instruction_pointer := InstructionPointer.End })
  ∧ Engine.prev_instruction { Engine.new [iA, iB] with instruction_pointer := InstructionPointer.End }
      = (Except.ok (), { Engine.new [iA, iB] with instruction_pointer := InstructionPointer.Index 1 })
  ∧ Engine.prev_instruction { Engine.new [iA, iB] with instruction_pointer := InstructionPointer.Index 1 }
      = (Except.ok (), { Engine.new [iA, iB] with instruction_pointer := InstructionPointer.Index 0 })
  ∧ Engine.prev_instruction { Engine.new [iA, iB] with instruction_pointer := InstructionPointer.Index 0 }
      = (Except.ok (), { Engine.new [iA, iB] with instruction_pointer := InstructionPointer.Start })
  ∧ Engine.prev_instruction (Engine.new [iA, iB])
      = (Except.error (Exception.Error "already at the start of the instruction list"), Engine.new [iA, iB]) := by
  refine ⟨(C5_pc_transitions _).1 rfl,
    (C5_pc_transitions _).2.1 0 rfl (by decide),
    (C5_pc_transitions _).2.2.1 1 rfl (by decide),
    (C5_pc_transitions _).2.2.2.1 rfl,
    ?_,
    (C5_pc_transitions _).2.2.2.2.2.1 1 rfl (by decide),
    (C5_pc_transitions _).2.2.2.2.2.2.1 rfl,
    (C5_pc_transitions _).2.2.2.2.2.2.2 rfl⟩
  · have h := (C5_pc_transitions { Engine.new [iA, iB] with
      instruction_pointer := InstructionPointer.End }).2.2.2.2.1 rfl (by decide)
    simpa using h

/-- Claim C8: for every engine state satisfying the cursor invariant
`cursor < length tape`, `next_cell` (move-right) always succeeds,
increments the cursor by one, appends exactly one zero cell iff the
incremented cursor equals the tape length (and otherwise leaves the tape
unchanged), never shrinks the tape, preserves the cursor invariant, and
changes no field other than the tape and cursor. -/
theorem C8_move_right (e : Engine) (h : e.tape_pointer < e.tape.length) :
    (Engine.next_cell e).1 = Except.ok ()
  ∧ (Engine.next_cell e).2.tape_pointer = e.tape_pointer + 1
  ∧ ((Engine.next_cell e).2.tape = e.tape ++ [0] ↔ e.tape_pointer + 1 = e.tape.length)
  ∧ (e.tape_pointer + 1 ≠ e.tape.length → (Engine.next_cell e).2.tape = e.tape)
  ∧ e.tape.length ≤ (Engine.next_cell e).2.tape.length
  ∧ (Engine.next_cell e).2.tape_pointer < (Engine.next_cell e).2.tape.length
  ∧ (Engine.next_cell e).2.instructions = e.instructions
  ∧ (Engine.next_cell e).2.instruction_pointer = e.instruction_pointer
  ∧ (Engine.next_cell e).2.history = e.history
  ∧ (Engine.next_cell e).2.output = e.output
  ∧ (Engine.next_cell e).2.input = e.input
  ∧ (Engine.next_cell e).2.input_cell_history = e.input_cell_history := by
  by_cases hc : e.tape_pointer + 1 = e.tape.length
  · have hs : Engine.next_cell e
        = (Except.ok (), { e with tape_pointer := e.tape_pointer + 1, tape := e.tape ++ [0] }) := by
      unfold Engine.next_cell
      rw [if_pos hc]
    rw [hs]
    refine ⟨rfl, rfl, by simp [hc], fun hne => absurd hc hne, ?_, ?_,
      rfl, rfl, rfl, rfl, rfl, rfl⟩
    · show e.tape.length ≤ (e.tape ++ [0]).length
      simp only [List.length_append, List.length_singleton]
      omega
    · show e.tape_pointer + 1 < (e.tape ++ [0]).length
      simp only [List.length_append, List.length_singleton]
      omega
  · have hs : Engine.next_cell e = (Except.ok (), { e with tape_pointer := e.tape_pointer + 1 }) := by
      unfold Engine.next_cell
      rw [if_neg hc]
    rw [hs]
    refine ⟨rfl, rfl, ?_, fun _ => rfl, Nat.le_refl _, ?_,
      rfl, rfl, rfl, rfl, rfl, rfl⟩
    · constructor
      · intro habs
        have hlen := congrArg List.length habs
        simp at hlen
      · intro habs
        exact absurd habs hc
    · show e.tape_pointer + 1 < e.tape.length
      omega

/-- Claim C8, witness: move-right on a fresh engine (cursor at the last
cell) appends exactly one zero cell and moves the cursor to it. -/
theorem C8_move_right_witness :
    (Engine.next_cell (Engine.new [])).1 = Except.ok ()
  ∧ (Engine.next_cell (Engine.new [])).2.tape_pointer = 1
  ∧ (Engine.next_cell (Engine.new [])).2.tape = [0, 0] := by
  refine ⟨(C8_move_right (Engine.new []) (by decide)).1,
    (C8_move_right (Engine.new []) (by decide)).2.1, ?_⟩
  have h := ((C8_move_right (Engine.new []) (by decide)).2.2.1).mpr (by decide)
  simpa using h

/-- Claim C9: for every engine state with cursor at least 1, `prev_cell`
(move-left) succeeds, decrements the cursor by exactly one, changes no
other field, and preserves the invariant `cursor < length tape`; the
unguarded wrapping subtraction agrees with plain subtraction exactly
because of the `1 ≤ cursor` precondition. -/
theorem C9_move_left (e : Engine) (h : 1 ≤ e.tape_pointer) :
    Engine.prev_cell e = (Except.ok (), { e with tape_pointer := e.tape_pointer - 1 })
  ∧ (e.tape_pointer < e.tape.length → e.tape_pointer - 1 < e.tape.length) := by
  constructor
  · unfold Engine.prev_cell usizeSub
    rw [if_pos h]
  · intro h2
    omega

/-- Claim C9, witness: move-left from cursor 1 on a two-cell tape. -/
theorem C9_move_left_witness :
    Engine.prev_cell { Engine.new [] with tape := [0, 0], tape_pointer := 1 }
      = (Except.ok (), { Engine.new [] with tape := [0, 0], tape_pointer := 0 })
  ∧ (0 : Nat) < ({ Engine.new [] with tape := [0, 0], tape_pointer := 1 } : Engine).tape.length := by
  refine ⟨(C9_move_left { Engine.new [] with tape := [0, 0], tape_pointer := 1 } (by decide)).1, ?_⟩
  exact (C9_move_left { Engine.new [] with tape := [0, 0], tape_pointer := 1 } (by decide)).2 (by decide)

/-- Claim C2: for every engine, if the program counter is before-start
or after-end then `step` behaves exactly like `advance`
(`next_instruction`) with history unchanged; if it is at-index `i`
(in range), `step` invokes that instruction's forward effect on the full
engine state, appends the instruction to history exactly when the effect
succeeds, and on effect failure propagates the failure with history
unchanged. -/
theorem C2_step_semantics (cat : Catalog) (e : Engine) :
    ((e.instruction_pointer = InstructionPointer.Start ∨ e.instruction_pointer = InstructionPointer.End) →
      Engine.step cat e = e.next_instruction ∧ (Engine.step cat e).2.history = e.history)
  ∧ (∀ i, e.instruction_pointer = InstructionPointer.Index i →
      ∀ hl : i < e.instructions.length,
      (∀ m, cat.exec (e.instructions.get ⟨i, hl⟩).symbol e = (Except.ok (), m) →
        Engine.step cat e = (Except.ok (),
          { m with history := m.history ++ [e.instructions.get ⟨i, hl⟩] })
        ∧ (Engine.step cat e).2.history = e.history ++ [e.instructions.get ⟨i, hl⟩])
      ∧ (∀ ex m, cat.exec (e.instructions.get ⟨i, hl⟩).symbol e = (Except.error ex, m) →
        Engine.step cat e = (Except.error ex, m)
        ∧ (Engine.step cat e).2.history = e.history)) := by
  constructor
  · intro h
    have hcur : e.current_instruction = none := by
      unfold Engine.current_instruction
      rcases h with h | h <;> rw [h]
    have hs := step_cur_none cat e hcur
    refine ⟨hs, ?_⟩
    rw [hs]
    rcases h with h | h <;> simp [Engine.next_instruction, h]
  · intro i hip hl
    constructor
    · intro m hm
      have hs := step_exec_ok cat e _ m (current_instruction_at e i hip hl) hm
      refine ⟨hs, ?_⟩
      rw [hs]
      have hmh : m.history = e.history := by
        have h2 := exec_snd_history cat (e.instructions.get ⟨i, hl⟩).symbol e
        rw [hm] at h2
        exact h2
      simp [hmh]
    · intro ex m hm
      have hs := step_exec_error cat e _ ex m (current_instruction_at e i hip hl) hm
      refine ⟨hs, ?_⟩
      rw [hs]
      have h2 := exec_snd_history cat (e.instructions.get ⟨i, hl⟩).symbol e
      rw [hm] at h2
      exact h2

/-- Claim C2, witness: under the `emitCat` catalog, a boundary `step`
on a fresh engine equals `advance`, and an at-index `step` appends the
executed instruction to the history while performing its effect. -/
theorem C2_step_semantics_witness :
    Engine.step emitCat (Engine.new [iC]) = (Engine.new [iC]).next_instruction
  ∧ Engine.step emitCat { Engine.new [iC] with instruction_pointer := InstructionPointer.Index 0 }
      = (Except.ok (),
          { Engine.new [iC] with
              instruction_pointer := InstructionPointer.Index 0
              output := [1]
              history := [iC] }) := by
  constructor
  · exact ((C2_step_semantics emitCat (Engine.new [iC])).1 (Or.inl rfl)).1
  · exact (((C2_step_semantics emitCat
      { Engine.new [iC] with instruction_pointer := InstructionPointer.Index 0 }).2 0 rfl
      (by decide)).1
      { Engine.new [iC] with instruction_pointer := InstructionPointer.Index 0, output := [1] }
      (by decide)).1

/-- Claim C3, amended: for every engine with empty history, `undo` fails
with the no-history error and changes nothing; for every engine with
non-empty history, `undo` invokes the inverse effect of the most recent
history entry and pops that entry only when the inverse effect succeeds;
when the inverse effect fails, the failure is propagated and the history
is left unchanged (the entry is not consumed, so the undo can be
retried). -/
theorem C3_undo_amended (cat : Catalog) (e : Engine) :
    (e.history = [] →
      Engine.undo cat e = (Except.error (Exception.Error "no previous instruction to undo"), e))
  ∧ (∀ c, e.history.getLast? = some c →
      (∀ m, cat.unexec c.symbol e = (Except.ok (), m) →
        Engine.undo cat e = (Except.ok (), { m with history := m.history.dropLast })
        ∧ (Engine.undo cat e).2.history = e.history.dropLast)
      ∧ (∀ ex m, cat.unexec c.symbol e = (Except.error ex, m) →
        Engine.undo cat e = (Except.error ex, m)
        ∧ (Engine.undo cat e).2.history = e.history)) := by
  constructor
  · intro h
    exact undo_no_history cat e (by simp [h])
  · intro c hc
    constructor
    · intro m hm
      have hs := undo_unexec_ok cat e c m hc hm
      refine ⟨hs, ?_⟩
      rw [hs]
      have hmh : m.history = e.history := by
        have h2 := unexec_snd_history cat c.symbol e
        rw [hm] at h2
        exact h2
      simp [hmh]
    · intro ex m hm
      have hs := undo_unexec_error cat e c ex m hc hm
      refine ⟨hs, ?_⟩
      rw [hs]
      have h2 := unexec_snd_history cat c.symbol e
      rw [hm] at h2
      exact h2

/-- Claim C3, counterexample to the claim as stated: under `failCat`
(whose inverse effects fail), on the reachable engine `e3` with history
`[c]`, a failed `undo` leaves the history exactly as it was — the
inspected entry is not consumed, contradicting "the popped entry is
considered consumed regardless". -/
theorem C3_counterexample :
    e3.history = [iC]
  ∧ e3 = (Engine.step failCat (Engine.step failCat (Engine.new [iC])).2).2
  ∧ Engine.undo failCat e3 = (Except.error (Exception.Error "inverse effect failed"), e3)
  ∧ (Engine.undo failCat e3).2.history ≠ e3.history.dropLast
  ∧ (Engine.undo failCat e3).2.history = e3.history := by
  refine ⟨rfl, by decide, by decide, by decide, by decide⟩

/-- Claim C3, witness: the amended theorem applied to an empty-history
engine, to a failing inverse effect (history untouched), and to a
successful inverse effect (entry popped). -/
theorem C3_undo_witness :
    Engine.undo failCat (Engine.new [iC])
      = (Except.error (Exception.Error "no previous instruction to undo"), Engine.new [iC])
  ∧ Engine.undo failCat e3 = (Except.error (Exception.Error "inverse effect failed"), e3)
  ∧ (Engine.undo failCat e3).2.history = e3.history
  ∧ Engine.undo emitCat ce1 = (Except.ok (), { ce1 with output := [], history := [] }) := by
  refine ⟨(C3_undo_amended failCat (Engine.new [iC])).1 rfl, ?_, ?_, ?_⟩
  · exact (((C3_undo_amended failCat e3).2 iC (by decide)).2
      (Exception.Error "inverse effect failed") e3 (by decide)).1
  · exact (((C3_undo_amended failCat e3).2 iC (by decide)).2
      (Exception.Error "inverse effect failed") e3 (by decide)).2
  · exact (((C3_undo_amended emitCat ce1).2 iC (by decide)).1
      { ce1 with output := [] } (by decide)).1

/-- Claim C10: for every engine with non-empty history, if the inverse
effect invoked by `undo` returns a failure (an error or
`RequestingInput`), the history stack after the call is identical to the
history before it — the inspected entry is not popped — so the same
`undo` call can be retried. -/
theorem C10_undo_failure_keeps_history (cat : Catalog) (e : Engine) (c : Instruction)
    (ex : Exception) (m : Engine) (h : e.history.getLast? = some c)
    (hx : cat.unexec c.symbol e = (Except.error ex, m)) :
    (Engine.undo cat e).1 = Except.error ex ∧ (Engine.undo cat e).2.history = e.history := by
  have hu := undo_unexec_error cat e c ex m h hx
  rw [hu]
  have hm : m.history = e.history := by
    have h2 := unexec_snd_history cat c.symbol e
    rw [hx] at h2
    exact h2
  exact ⟨rfl, hm⟩

/-- Claim C10, witness: a failed `undo` under `failCat` on the engine
`e3` (history `[c]`) propagates the failure and leaves the history
identical. -/
theorem C10_undo_failure_witness :
    (Engine.undo failCat e3).1 = Except.error (Exception.Error "inverse effect failed")
  ∧ (Engine.undo failCat e3).2.history = e3.history :=
  C10_undo_failure_keeps_history failCat e3 iC (Exception.Error "inverse effect failed") e3
    (by decide) (by decide)

theorem noopCat_contract : InverseContract noopCat := by
  intro c e m h
  injection h with h1 h2
  rw [h2]
  rfl

theorem emitCat_contract : InverseContract emitCat := by
  intro c e m h
  by_cases hc : c = 'c'
  · subst hc
    have hm : { e with output := e.output ++ [1] } = m := by
      have h2 := congrArg Prod.snd h
      simpa [emitCat, emitExec] using h2
    rw [← hm]
    show emitUnexec 'c' { e with output := e.output ++ [1] } = (Except.ok (), e)
    unfold emitUnexec
    rw [if_pos rfl]
    rw [List.dropLast_concat]
  · exfalso
    have h1 := congrArg Prod.fst h
    simp [emitCat, emitExec, hc] at h1

/-- Claim C1, amended: for every engine whose instruction catalog
satisfies the inverse-effect contract, any sequence of `n` successful
instruction-executing `step` calls (the program counter designating an
instruction each time) followed by `n` `undo` calls returns the entire
engine state — in particular the tape, tape cursor, and output buffer —
to the exact values it had before the sequence.  (The claim as stated,
which also admits boundary `advance`-steps among the `n` steps, is
refuted by `C1_counterexample`.) -/
theorem C1_invertibility_amended (cat : Catalog) (hc : InverseContract cat)
    (n : Nat) (e0 en : Engine) (h : ExecSteps cat n e0 en) :
    undoN cat n en = e0
  ∧ (undoN cat n en).tape = e0.tape
  ∧ (undoN cat n en).tape_pointer = e0.tape_pointer
  ∧ (undoN cat n en).output = e0.output := by
  have main : undoN cat n en = e0 := by
    induction n generalizing e0 with
    | zero => exact h
    | succ k ih =>
        obtain ⟨e1, hstep, hrest⟩ := h
        have hk : undoN cat k en = e1 := ih e1 hrest
        show (Engine.undo cat (undoN cat k en)).2 = e0
        rw [hk, undo_of_exec_step cat hc e0 e1 hstep]
  exact ⟨main, by rw [main], by rw [main], by rw [main]⟩

/-- Claim C1, counterexample to the claim as stated: under the catalog
`emitCat` — which satisfies the inverse-effect contract — the reachable
engine `ce0` (program counter back at before-start while the history
already records an executed instruction) admits one successful `step`
call (a pure boundary advance) after which one successful `undo` call
applies the recorded instruction's inverse effect to a state it never
produced: the output buffer ends as `[]` instead of the pre-sequence
`[1]`. -/
theorem C1_counterexample :
    InverseContract emitCat
  ∧ ce0 = (Engine.prev_instruction (Engine.step emitCat (Engine.step emitCat (Engine.new [iC])).2).2).2
  ∧ StepSeq emitCat 1 ce0 ce1
  ∧ (Engine.undo emitCat ce1).1 = Except.ok ()
  ∧ (undoN emitCat 1 ce1).output ≠ ce0.output := by
  exact ⟨emitCat_contract, by decide, ⟨ce1, by decide, rfl⟩, by decide, by decide⟩

/-- Claim C1, witness: the amended theorem applied to one executing step
under `emitCat` from `w0`; the single `undo` restores the full state. -/
theorem C1_invertibility_witness :
    InverseContract emitCat
  ∧ ExecSteps emitCat 1 w0 w1
  ∧ undoN emitCat 1 w1 = w0
  ∧ (undoN emitCat 1 w1).output = w0.output := by
  have hsteps : ExecSteps emitCat 1 w0 w1 := ⟨w1, ⟨0, by decide, by decide, by decide⟩, rfl⟩
  exact ⟨emitCat_contract, hsteps,
    (C1_invertibility_amended emitCat emitCat_contract 1 w0 w1 hsteps).1,
    (C1_invertibility_amended emitCat emitCat_contract 1 w0 w1 hsteps).2.2.2⟩

/-- Claim C6, code bug, evaluation at the failing input: on the
reachable one-instruction engine at after-end, `goto_prev` of the lone
instruction's symbol fails with the not-found error even though a match
exists strictly before the current position at index `N - 1 = 0`,
because the `End` arm scans only `take (len - 1)` — indices up to
`N - 2` — where the specification says the scan covers up to and
including `N - 1`. -/
theorem C6_goto_prev_end_eval :
    endEngine.instruction_pointer = InstructionPointer.End
  ∧ endEngine = (Engine.next_instruction (Engine.next_instruction (Engine.new [iC])).2).2
  ∧ 0 < endEngine.instructions.length
  ∧ endEngine.instructions[0]? = some iC
  ∧ Engine.goto_prev endEngine iC
      = (Except.error (Exception.Error "no previous c instruction found"), endEngine) := by
  exact ⟨rfl, by decide, by decide, by decide, by decide⟩

theorem findFrom_none (l : List Instruction) (g : Instruction) (k : Nat)
    (h : ∀ j (hj : j < l.length), l.get ⟨j, hj⟩ ≠ g) : findFrom l g k = none := by
  induction l generalizing k with
  | nil => rfl
  | cons x xs ih =>
      have hx : x ≠ g := h 0 (Nat.succ_pos xs.length)
      unfold findFrom
      rw [if_neg hx]
      exact ih (k + 1) (fun j hj => h (j + 1) (Nat.succ_lt_succ hj))

theorem findFrom_some (l : List Instruction) (g : Instruction) :
    ∀ (k j : Nat) (hj : j < l.length), l.get ⟨j, hj⟩ = g →
    (∀ m (hm : m < j), l.get ⟨m, Nat.lt_trans hm hj⟩ ≠ g) →
    findFrom l g k = some (k + j) := by
  induction l with
  | nil =>
      intro k j hj
      exact absurd hj (by simp)
  | cons x xs ih =>
      intro k j hj hmatch hmin
      cases j with
      | zero =>
          have hx : x = g := hmatch
          unfold findFrom
          rw [if_pos hx, Nat.add_zero]
      | succ jj =>
          have hx : x ≠ g := hmin 0 (Nat.succ_pos jj)
          unfold findFrom
          rw [if_neg hx]
          have hr := ih (k + 1) jj (Nat.lt_of_succ_lt_succ hj) hmatch
            (fun m hm => hmin (m + 1) (Nat.succ_lt_succ hm))
          rw [hr]
          congr 1
          omega

theorem scan_drop_none (l : List Instruction) (g : Instruction) (s : Nat)
    (h : ∀ j (hj : j < l.length), s ≤ j → l.get ⟨j, hj⟩ ≠ g) :
    findFrom (l.drop s) g s = none := by
  apply findFrom_none
  intro j hj
  have hlen : s + j < l.length := by
    have h2 := hj
    rw [List.length_drop] at h2
    omega
  have hg : (l.drop s).get ⟨j, hj⟩ = l.get ⟨s + j, hlen⟩ := by
    simp [List.get_eq_getElem]
  rw [hg]
  exact h (s + j) hlen (Nat.le_add_right s j)

theorem scan_drop_some (l : List Instruction) (g : Instruction) (s j : Nat)
    (hj : j < l.length) (hsle : s ≤ j) (hmatch : l.get ⟨j, hj⟩ = g)
    (hmin : ∀ m (hm : m < j), s ≤ m → l.get ⟨m, Nat.lt_trans hm hj⟩ ≠ g) :
    findFrom (l.drop s) g s = some j := by
  have hdj : j - s < (l.drop s).length := by
    rw [List.length_drop]
    omega
  have hidx : s + (j - s) = j := Nat.add_sub_cancel' hsle
  have hm : (l.drop s).get ⟨j - s, hdj⟩ = g := by
    have hg : (l.drop s).get ⟨j - s, hdj⟩ = l.get ⟨j, hj⟩ := by
      simp only [List.get_eq_getElem, List.getElem_drop]
      congr 1
    rw [hg]
    exact hmatch
  have hmins : ∀ m (hm2 : m < j - s), (l.drop s).get ⟨m, Nat.lt_trans hm2 hdj⟩ ≠ g := by
    intro m hm2
    have hlen : s + m < l.length := by omega
    have hg : (l.drop s).get ⟨m, Nat.lt_trans hm2 hdj⟩ = l.get ⟨s + m, hlen⟩ := by
      simp [List.get_eq_getElem]
    rw [hg]
    exact hmin (s + m) (by omega) (Nat.le_add_right s m)
  have hr := findFrom_some (l.drop s) g s (j - s) hdj hm hmins
  rw [hr, hidx]

theorem goto_next_end_eq (e : Engine) (g : Instruction)
    (hip : e.instruction_pointer = InstructionPointer.End) :
    Engine.goto_next e g
      = (Except.error (Exception.Error "already at the end of the instruction list"), e) := by
  unfold Engine.goto_next
  rw [hip]

theorem goto_next_start_eq (e : Engine) (g : Instruction)
    (hip : e.instruction_pointer = InstructionPointer.Start) :
    Engine.goto_next e g = (match findFrom (e.instructions.drop 0) g 0 with
      | some j => (Except.ok (), { e with instruction_pointer := InstructionPointer.Index j })
      | none => (Except.error (Exception.Error
          ("no next " ++ g.symbol.toString ++ " instruction found")), e)) := by
  unfold Engine.goto_next
  rw [hip]

theorem goto_next_index_eq (e : Engine) (g : Instruction) (i : Nat)
    (hip : e.instruction_pointer = InstructionPointer.Index i) :
    Engine.goto_next e g = (match findFrom (e.instructions.drop (i + 1)) g (i + 1) with
      | some j => (Except.ok (), { e with instruction_pointer := InstructionPointer.Index j })
      | none => (Except.error (Exception.Error
          ("no next " ++ g.symbol.toString ++ " instruction found")), e)) := by
  unfold Engine.goto_next
  rw [hip]

/-- Claim C7: for every engine, seek-forward (`goto_next`) scans
strictly after the current position — from index 0 at before-start, with
an immediate navigation-exhausted failure at after-end — jumps to the
first matching instruction, and on a miss fails with the not-found error
leaving all state unchanged; in particular on `[a, b, c, b, a, c]`
starting before-start, three successive seeks of `c` land at index 2,
then index 5, then fail leaving the counter at index 5. -/
theorem C7_seek_forward (e : Engine) (g : Instruction) :
    (e.instruction_pointer = InstructionPointer.End →
      Engine.goto_next e g
        = (Except.error (Exception.Error "already at the end of the instruction list"), e))
  ∧ (e.instruction_pointer = InstructionPointer.Start →
      ((∀ j (hj : j < e.instructions.length), e.instructions.get ⟨j, hj⟩ ≠ g) →
        Engine.goto_next e g = (Except.error (Exception.Error
          ("no next " ++ g.symbol.toString ++ " instruction found")), e))
      ∧ (∀ j (hj : j < e.instructions.length), e.instructions.get ⟨j, hj⟩ = g →
          (∀ m (hm : m < j), e.instructions.get ⟨m, Nat.lt_trans hm hj⟩ ≠ g) →
          Engine.goto_next e g
            = (Except.ok (), { e with instruction_pointer := InstructionPointer.Index j })))
  ∧ (∀ i, e.instruction_pointer = InstructionPointer.Index i →
      ((∀ j (hj : j < e.instructions.length), i + 1 ≤ j → e.instructions.get ⟨j, hj⟩ ≠ g) →
        Engine.goto_next e g = (Except.error (Exception.Error
          ("no next " ++ g.symbol.toString ++ " instruction found")), e))
      ∧ (∀ j (hj : j < e.instructions.length), i + 1 ≤ j → e.instructions.get ⟨j, hj⟩ = g →
          (∀ m (hm : m < j), i + 1 ≤ m → e.instructions.get ⟨m, Nat.lt_trans hm hj⟩ ≠ g) →
          Engine.goto_next e g
            = (Except.ok (), { e with instruction_pointer := InstructionPointer.Index j })))
  ∧ (Engine.goto_next abcEngine iC
        = (Except.ok (), { abcEngine with instruction_pointer := InstructionPointer.Index 2 })
      ∧ Engine.goto_next { abcEngine with instruction_pointer := InstructionPointer.Index 2 } iC
          = (Except.ok (), { abcEngine with instruction_pointer := InstructionPointer.Index 5 })
      ∧ Engine.goto_next { abcEngine with instruction_pointer := InstructionPointer.Index 5 } iC
          = (Except.error (Exception.Error "no next c instruction found"),
              { abcEngine with instruction_pointer := InstructionPointer.Index 5 })) := by
  refine ⟨fun hip => goto_next_end_eq e g hip, fun hip => ⟨?_, ?_⟩, fun i hip => ⟨?_, ?_⟩,
    by decide, by decide, by decide⟩
  · intro h
    rw [goto_next_start_eq e g hip, scan_drop_none e.instructions g 0 (fun j hj _ => h j hj)]
  · intro j hj hmatch hmin
    rw [goto_next_start_eq e g hip, scan_drop_some e.instructions g 0 j hj (Nat.zero_le j) hmatch
      (fun m hm _ => hmin m hm)]
  · intro h
    rw [goto_next_index_eq e g i hip, scan_drop_none e.instructions g (i + 1) h]
  · intro j hj hle hmatch hmin
    rw [goto_next_index_eq e g i hip, scan_drop_some e.instructions g (i + 1) j hj hle hmatch hmin]

/-- Claim C7, witness: the seek-forward characterization applied to the
scenario program — the second seek of `c` from index 2 lands at index 5
because index 5 is the first match strictly after position 2. -/
theorem C7_seek_forward_witness :
    Engine.goto_next abcEngine iC
      = (Except.ok (), { abcEngine with instruction_pointer := InstructionPointer.Index 2 })
  ∧ Engine.goto_next { abcEngine with instruction_pointer := InstructionPointer.Index 2 } iC
      = (Except.ok (), { abcEngine with instruction_pointer := InstructionPointer.Index 5 })
  ∧ Engine.goto_next { abcEngine with instruction_pointer := InstructionPointer.Index 5 } iC
      = (Except.error (Exception.Error "no next c instruction found"),
          { abcEngine with instruction_pointer := InstructionPointer.Index 5 }) := by
  refine ⟨?_, ?_, ?_⟩
  · exact ((C7_seek_forward abcEngine iC).2.1 rfl).2 2 (by decide) (by decide) (by decide)
  · exact (((C7_seek_forward { abcEngine with instruction_pointer := InstructionPointer.Index 2 }
      iC).2.2.1 2 rfl).2) 5 (by decide) (by decide) (by decide) (by decide)
  · exact (((C7_seek_forward { abcEngine with instruction_pointer := InstructionPointer.Index 5 }
      iC).2.2.1 5 rfl).1) (by decide)

end Plaque
